import Mathlib

/-!
# Verification of cputemp2rgb

A shallow embedding of `cputemp2rgb.py` in Lean 4, together with proofs of
the specification's claims about it.

The program reads a CPU temperature, smooths it, converts it to an RGB
triple via Tanner Helland's blackbody approximation, and pushes the color to
hardware. The pure core embedded here:

* `cputemp` — scans the sensor-group mapping, taking the running maximum
  (starting at 0.0) of all `current` readings in groups named `coretemp` or
  `k10temp`; exits with a diagnostic when the mapping is empty.
* `c8bit` — clamps a real channel value into an integer in [0, 255]
  (Python `int()` truncates toward zero).
* `r`, `g`, `b` — the per-channel blackbody formulas with the ≤ 0 floor
  substitution of 0.1.
* `tick` — one iteration of the main loop's body: offset update (using the
  previous smoothed temperature), smoothing update, shifted output, color.

Machine floats are modelled as real numbers.
-/

namespace Cputemp2rgb

/-- `COLORSHIFT = 0` — the user-editable gradient-shift constant. -/
def COLORSHIFT : ℝ := 0

/-- One sensor entry as reported by `psutil.sensors_temperatures()`;
only the `current` field is read by the program. -/
structure SensorEntry where
  current : ℝ

/-- A sensor-group mapping: group name together with its entries, in
iteration order. -/
abbrev SensorMap := List (String × List SensorEntry)

/-- `cputemp()`: exits when the mapping is empty; otherwise the running
maximum, starting from `0.0`, of `entry.current` over all entries of groups
named `coretemp` or `k10temp` (`if entry.current > temp: temp = entry.current`). -/
noncomputable def cputemp (temps : SensorMap) : Except String ℝ :=
  if temps.isEmpty then
    .error "Unable to read temperature sensors!"
  else
    .ok (temps.foldl
      (fun temp p =>
        if p.1 = "coretemp" ∨ p.1 = "k10temp" then
          p.2.foldl (fun t e => if e.current > t then e.current else t) temp
        else temp)
      0)

/-- Python `int()` on a real value: truncation toward zero. -/
noncomputable def pyint (num : ℝ) : ℤ :=
  if num < 0 then ⌈num⌉ else ⌊num⌋

/-- `c8bit(num)`: clamp to an integer in [0, 255]. -/
noncomputable def c8bit (num : ℝ) : ℤ :=
  if num < 0 then 0
  else if num > 255 then 255
  else pyint num

/-- `r(temp)`: red channel. -/
noncomputable def r (temp : ℝ) : ℤ :=
  let temp := if temp ≤ 0.0 then 0.1 else temp
  if temp ≤ 66.0 then
    c8bit 255
  else
    c8bit (329.698727446 * (temp - 60.0) ^ (-0.1332047592 : ℝ))

/-- `g(temp)`: green channel. -/
noncomputable def g (temp : ℝ) : ℤ :=
  let temp := if temp ≤ 0.0 then 0.1 else temp
  if temp ≤ 66.0 then
    c8bit (99.4708025861 * Real.log temp - 161.1195681661)
  else
    c8bit (288.1221695283 * (temp - 60) ^ (-0.0755148492 : ℝ))

/-- `b(temp)`: blue channel. -/
noncomputable def b (temp : ℝ) : ℤ :=
  let temp := if temp ≤ 0.0 then 0.1 else temp
  if temp ≥ 66 then
    c8bit 255
  else if temp ≤ 19 then
    c8bit 0
  else
    c8bit (138.5177312231 * Real.log (temp - 10) - 305.0447927307)

/-- The two scalars carried between iterations of the main loop. -/
structure LoopState where
  temp : ℝ
  offset : ℝ

/-- One iteration of the `while True:` body of `cputemp2rgb()`: update the
offset from the previous smoothed temperature, average in the new raw
sample, compute the shifted output, and produce the color triple. -/
noncomputable def tick (s : LoopState) (raw : ℝ) : LoopState × ℝ × (ℤ × ℤ × ℤ) :=
  let offset := if s.temp < s.offset then s.temp else s.offset
  let temp := (s.temp + raw) / 2.0
  let output := temp - offset + COLORSHIFT
  (⟨temp, offset⟩, output, (r output, g output, b output))

/-- The state reached after consuming a sequence of raw samples. -/
noncomputable def run (s : LoopState) (raws : List ℝ) : LoopState :=
  raws.foldl (fun s raw => (tick s raw).1) s

/-! ## Helper lemmas about the clamp -/

theorem pyint_of_nonneg {num : ℝ} (h : 0 ≤ num) : pyint num = ⌊num⌋ := by
  simp [pyint, not_lt.mpr h]

theorem c8bit_nonneg (num : ℝ) : 0 ≤ c8bit num := by
  unfold c8bit
  split
  · exact le_refl 0
  · split
    · norm_num
    · rename_i h1 h2
      rw [pyint_of_nonneg (not_lt.mp h1)]
      exact Int.floor_nonneg.mpr (not_lt.mp h1)

theorem c8bit_le_255 (num : ℝ) : c8bit num ≤ 255 := by
  unfold c8bit
  split
  · norm_num
  · split
    · exact le_refl 255
    · rename_i h1 h2
      rw [pyint_of_nonneg (not_lt.mp h1)]
      have : num ≤ 255 := not_lt.mp h2
      calc ⌊num⌋ ≤ ⌊(255 : ℝ)⌋ := Int.floor_le_floor this
        _ = 255 := by norm_num

theorem c8bit_eq_floor {num : ℝ} (h0 : 0 ≤ num) (h255 : num ≤ 255) :
    c8bit num = ⌊num⌋ := by
  rw [c8bit, if_neg (not_lt.mpr h0), if_neg (not_lt.mpr h255), pyint_of_nonneg h0]

theorem c8bit_255 : c8bit 255 = 255 := by
  rw [c8bit_eq_floor (by norm_num) (by norm_num)]
  norm_num

theorem c8bit_mono {a c : ℝ} (h : a ≤ c) : c8bit a ≤ c8bit c := by
  by_cases ha : a < 0
  · rw [c8bit, if_pos ha]
    exact c8bit_nonneg c
  · by_cases hc : c > 255
    · have : c8bit c = 255 := by
        rw [c8bit, if_neg (not_lt.mpr (le_trans (not_lt.mp ha) h)), if_pos hc]
      rw [this]
      exact c8bit_le_255 a
    · have ha' : ¬ a > 255 := not_lt.mpr (le_trans h (not_lt.mp hc))
      have hc0 : ¬ c < 0 := not_lt.mpr (le_trans (not_lt.mp ha) h)
      rw [c8bit, if_neg ha, if_neg ha', pyint_of_nonneg (not_lt.mp ha)]
      rw [c8bit, if_neg hc0, if_neg (not_lt.mpr (not_lt.mp hc)),
        pyint_of_nonneg (not_lt.mp hc0)]
      exact Int.floor_le_floor h

/-! ## Unfolding lemmas for the channel functions -/

theorem r_def (x : ℝ) : r x =
    if (if x ≤ 0.0 then (0.1 : ℝ) else x) ≤ 66.0 then c8bit 255
    else c8bit (329.698727446 *
      ((if x ≤ 0.0 then (0.1 : ℝ) else x) - 60.0) ^ (-0.1332047592 : ℝ)) := rfl

theorem g_def (x : ℝ) : g x =
    if (if x ≤ 0.0 then (0.1 : ℝ) else x) ≤ 66.0 then
      c8bit (99.4708025861 * Real.log (if x ≤ 0.0 then (0.1 : ℝ) else x) -
        161.1195681661)
    else c8bit (288.1221695283 *
      ((if x ≤ 0.0 then (0.1 : ℝ) else x) - 60) ^ (-0.0755148492 : ℝ)) := rfl

theorem b_def (x : ℝ) : b x =
    if (if x ≤ 0.0 then (0.1 : ℝ) else x) ≥ 66 then c8bit 255
    else if (if x ≤ 0.0 then (0.1 : ℝ) else x) ≤ 19 then c8bit 0
    else c8bit (138.5177312231 *
      Real.log ((if x ≤ 0.0 then (0.1 : ℝ) else x) - 10) - 305.0447927307) := rfl

theorem r_isC8bit (x : ℝ) : ∃ v, r x = c8bit v := by
  rw [r_def]
  split_ifs <;> exact ⟨_, rfl⟩

theorem g_isC8bit (x : ℝ) : ∃ v, g x = c8bit v := by
  rw [g_def]
  split_ifs <;> exact ⟨_, rfl⟩

theorem b_isC8bit (x : ℝ) : ∃ v, b x = c8bit v := by
  rw [b_def]
  split_ifs <;> exact ⟨_, rfl⟩

theorem r_bounds (x : ℝ) : 0 ≤ r x ∧ r x ≤ 255 := by
  obtain ⟨v, hv⟩ := r_isC8bit x
  rw [hv]
  exact ⟨c8bit_nonneg v, c8bit_le_255 v⟩

theorem g_bounds (x : ℝ) : 0 ≤ g x ∧ g x ≤ 255 := by
  obtain ⟨v, hv⟩ := g_isC8bit x
  rw [hv]
  exact ⟨c8bit_nonneg v, c8bit_le_255 v⟩

theorem b_bounds (x : ℝ) : 0 ≤ b x ∧ b x ≤ 255 := by
  obtain ⟨v, hv⟩ := b_isC8bit x
  rw [hv]
  exact ⟨c8bit_nonneg v, c8bit_le_255 v⟩

/-! ## Claims about the color model -/

/-- C5: for every real input x, the three channel functions return integers
each lying in [0, 255] (so in particular at the eleven sample points of the
spec's test list). -/
theorem colorModel_in_range (x : ℝ) :
    (0 ≤ r x ∧ r x ≤ 255) ∧ (0 ≤ g x ∧ g x ≤ 255) ∧ (0 ≤ b x ∧ b x ≤ 255) :=
  ⟨r_bounds x, g_bounds x, b_bounds x⟩

/-- C6: ColorModel(0) equals ColorModel(0.1) exactly in all three channels:
the ≤ 0 floor substitution of 0.1 happens before any branch test or channel
formula is evaluated. -/
theorem colorModel_zero_eq_pointOne :
    r 0 = r 0.1 ∧ g 0 = g 0.1 ∧ b 0 = b 0.1 := by
  refine ⟨?_, ?_, ?_⟩ <;>
    simp only [r_def, g_def, b_def] <;> norm_num

/-- C7: the clamp returns 0 on negative input, 255 on input above 255, and
otherwise truncates toward zero (Python `int()`) to an integer in [0, 255];
in particular c8bit(255.999) = 255 and c8bit(−0.5) = 0. -/
theorem c8bit_spec (num : ℝ) :
    (num < 0 → c8bit num = 0) ∧
    (num > 255 → c8bit num = 255) ∧
    (0 ≤ num → num ≤ 255 →
      c8bit num = pyint num ∧ c8bit num = ⌊num⌋ ∧
      0 ≤ c8bit num ∧ c8bit num ≤ 255) ∧
    c8bit 255.999 = 255 ∧ c8bit (-0.5) = 0 := by
  refine ⟨fun h => by rw [c8bit, if_pos h], fun h => ?_, fun h0 h255 => ?_, ?_, ?_⟩
  · rw [c8bit, if_neg (not_lt.mpr (by linarith)), if_pos h]
  · refine ⟨?_, c8bit_eq_floor h0 h255, c8bit_nonneg num, c8bit_le_255 num⟩
    rw [c8bit, if_neg (not_lt.mpr h0), if_neg (not_lt.mpr h255)]
  · rw [c8bit, if_neg (by norm_num), if_pos (by norm_num)]
  · rw [c8bit, if_pos (by norm_num)]

/-- Witness for C7: the three branch hypotheses discharged at −1, 300
and 42.7. -/
theorem c8bit_spec_witness :
    c8bit (-1) = 0 ∧ c8bit 300 = 255 ∧ c8bit 42.7 = ⌊(42.7 : ℝ)⌋ := by
  refine ⟨(c8bit_spec (-1)).1 (by norm_num),
    (c8bit_spec 300).2.1 (by norm_num),
    ((c8bit_spec 42.7).2.2.1 (by norm_num) (by norm_num)).2.1⟩

/-! ## Claims about the thermal loop -/

theorem tick_offset (s : LoopState) (raw : ℝ) :
    ((tick s raw).1).offset = if s.temp < s.offset then s.temp else s.offset := rfl

theorem tick_temp (s : LoopState) (raw : ℝ) :
    ((tick s raw).1).temp = (s.temp + raw) / 2.0 := rfl

theorem tick_offset_le_offset (s : LoopState) (raw : ℝ) :
    ((tick s raw).1).offset ≤ s.offset := by
  rw [tick_offset]
  split
  · rename_i h
    exact h.le
  · exact le_refl _

theorem tick_offset_le_temp (s : LoopState) (raw : ℝ) :
    ((tick s raw).1).offset ≤ s.temp := by
  rw [tick_offset]
  split
  · exact le_refl _
  · rename_i h
    exact not_lt.mp h

theorem run_offset_le (s : LoopState) (raws : List ℝ) :
    (run s raws).offset ≤ s.offset := by
  induction raws generalizing s with
  | nil => exact le_refl _
  | cons raw raws ih =>
      calc (run s (raw :: raws)).offset
          = (run ((tick s raw).1) raws).offset := rfl
        _ ≤ ((tick s raw).1).offset := ih _
        _ ≤ s.offset := tick_offset_le_offset s raw

/-- C3: over every sequence of raw samples, the `offset` component of the
loop state is monotonically non-increasing (the state after consuming any
further samples has an offset no larger than now), and the value assigned
on each tick never exceeds the smoothed temperature used in that
assignment (the previous tick's `temp`). -/
theorem ambient_offset_invariant :
    (∀ s : LoopState, ∀ raws : List ℝ, (run s raws).offset ≤ s.offset) ∧
    (∀ s : LoopState, ∀ raw : ℝ,
      ((tick s raw).1).offset ≤ s.offset ∧ ((tick s raw).1).offset ≤ s.temp) :=
  ⟨run_offset_le, fun s raw => ⟨tick_offset_le_offset s raw, tick_offset_le_temp s raw⟩⟩

/-- C4: each tick updates the offset to min(offset, temp) using the
previous tick's smoothed temperature, then averages in the new raw sample,
and computes this tick's color from
shifted = new temp − offset + COLORSHIFT; from state (50, 20) with raw
sample 60 the new smoothed temperature is 55 and the offset stays 20. -/
theorem tick_sequencing :
    (∀ s : LoopState, ∀ raw : ℝ,
      ((tick s raw).1).offset = min s.offset s.temp ∧
      ((tick s raw).1).temp = (s.temp + raw) / 2 ∧
      (tick s raw).2.1 = ((tick s raw).1).temp - ((tick s raw).1).offset + COLORSHIFT ∧
      (tick s raw).2.2 = (r ((tick s raw).2.1), g ((tick s raw).2.1), b ((tick s raw).2.1))) ∧
    ((tick ⟨50, 20⟩ 60).1).temp = 55 ∧ ((tick ⟨50, 20⟩ 60).1).offset = 20 ∧
    (tick ⟨50, 20⟩ 60).2.1 = 35 := by
  refine ⟨fun s raw => ⟨?_, by rw [tick_temp]; norm_num, rfl, rfl⟩, ?_, ?_, ?_⟩
  · rw [tick_offset]
    rcases lt_or_le s.temp s.offset with h | h
    · rw [if_pos h, min_eq_right h.le]
    · rw [if_neg (not_lt.mpr h), min_eq_left h]
  · rw [tick_temp]
    norm_num
  · rw [tick_offset]
    norm_num
  · show ((50 : ℝ) + 60) / 2.0 - (if (50 : ℝ) < 20 then (50 : ℝ) else 20) +
      COLORSHIFT = 35
    rw [COLORSHIFT]
    norm_num

/-! ## Monotonicity of the red and blue channels -/

theorem c8bit_zero : c8bit 0 = 0 := by
  rw [c8bit_eq_floor le_rfl (by norm_num)]
  norm_num

/-- C9: the red channel is monotonically non-increasing: for all real
inputs x1 ≤ x2, r(x1) ≥ r(x2). -/
theorem r_antitone (x1 x2 : ℝ) (h : x1 ≤ x2) : r x2 ≤ r x1 := by
  by_cases h1 : (if x1 ≤ 0.0 then (0.1 : ℝ) else x1) ≤ 66.0
  · rw [r_def x1, if_pos h1, c8bit_255]
    exact (r_bounds x2).2
  · have hx1pos : ¬ x1 ≤ 0.0 := by
      intro hx
      rw [if_pos hx] at h1
      norm_num at h1
    rw [if_neg hx1pos] at h1
    have h66 : (66 : ℝ) < x1 := by
      have := not_le.mp h1
      norm_num at this ⊢
      linarith
    have hx2pos : ¬ x2 ≤ 0.0 := by
      intro hx
      linarith
    rw [r_def x1, r_def x2, if_neg hx1pos, if_neg hx2pos,
      if_neg (not_le.mpr (by linarith : (66.0 : ℝ) < x1)),
      if_neg (not_le.mpr (by linarith : (66.0 : ℝ) < x2))]
    apply c8bit_mono
    apply mul_le_mul_of_nonneg_left _ (by norm_num)
    exact Real.rpow_le_rpow_of_nonpos (by linarith) (by linarith) (by norm_num)

/-- Witness for C9: the hypothesis 70 ≤ 100 discharged concretely. -/
theorem r_antitone_witness : r 100 ≤ r 70 :=
  r_antitone 70 100 (by norm_num)

/-- C10: the blue channel is monotonically non-decreasing: for all real
inputs x1 ≤ x2, b(x1) ≤ b(x2). -/
theorem b_monotone (x1 x2 : ℝ) (h : x1 ≤ x2) : b x1 ≤ b x2 := by
  by_cases h2 : (if x2 ≤ 0.0 then (0.1 : ℝ) else x2) ≥ 66
  · rw [b_def x2, if_pos h2, c8bit_255]
    exact (b_bounds x1).2
  · by_cases h1 : (if x1 ≤ 0.0 then (0.1 : ℝ) else x1) ≤ 19
    · have hlt : ¬ (if x1 ≤ 0.0 then (0.1 : ℝ) else x1) ≥ 66 := by
        push_neg
        linarith
      rw [b_def x1, if_neg hlt, if_pos h1, c8bit_zero]
      exact (b_bounds x2).1
    · have hx1pos : ¬ x1 ≤ 0.0 := by
        intro hx
        rw [if_pos hx] at h1
        norm_num at h1
      rw [if_neg hx1pos] at h1
      have h19 : (19 : ℝ) < x1 := not_le.mp h1
      have hx2pos : ¬ x2 ≤ 0.0 := by
        intro hx
        linarith
      rw [if_neg hx2pos] at h2
      have h66 : x2 < 66 := not_le.mp h2
      rw [b_def x1, b_def x2, if_neg hx1pos, if_neg hx2pos,
        if_neg (show ¬ x1 ≥ 66 by push_neg; linarith),
        if_neg h1, if_neg (not_le.mpr h66),
        if_neg (show ¬ x2 ≤ 19 by push_neg; linarith)]
      apply c8bit_mono
      have hlog := Real.log_le_log (show (0 : ℝ) < x1 - 10 by linarith)
        (by linarith : x1 - 10 ≤ x2 - 10)
      have := mul_le_mul_of_nonneg_left hlog
        (show (0 : ℝ) ≤ 138.5177312231 by norm_num)
      linarith

/-- Witness for C10: the hypothesis 25 ≤ 40 discharged concretely. -/
theorem b_monotone_witness : b 25 ≤ b 40 :=
  b_monotone 25 40 (by norm_num)

/-! ## Saturation above 66 -/

theorem rpow_pow24_le : ((16777216 : ℝ)) ^ (-0.1332047592 : ℝ) ≤ 1 / 8 := by
  have h1 : (16777216 : ℝ) = (2 : ℝ) ^ (24 : ℝ) := by
    rw [show ((24 : ℝ)) = ((24 : ℕ) : ℝ) by norm_num, Real.rpow_natCast]
    norm_num
  rw [h1, ← Real.rpow_mul (by norm_num)]
  calc (2 : ℝ) ^ ((24 : ℝ) * (-0.1332047592))
      ≤ (2 : ℝ) ^ ((-3 : ℝ)) := by
        apply Real.rpow_le_rpow_of_exponent_le (by norm_num)
        norm_num
    _ = 1 / 8 := by
        rw [show ((-3 : ℝ)) = ((-3 : ℤ) : ℝ) by norm_num, Real.rpow_intCast]
        norm_num

/-- Counterexample to C1 as stated: 16777276 ≥ 66, yet its red channel is
not 255 (the red power-law branch has decayed far below 255 there). -/
theorem red_not_saturated_at_large_input :
    (66 : ℝ) ≤ 16777276 ∧ r 16777276 ≠ 255 := by
  refine ⟨by norm_num, ?_⟩
  have hrw : r 16777276 =
      c8bit (329.698727446 * ((16777216 : ℝ)) ^ (-0.1332047592 : ℝ)) := by
    rw [r_def, if_neg (show ¬ (16777276 : ℝ) ≤ 0.0 by norm_num),
      if_neg (show ¬ (16777276 : ℝ) ≤ 66.0 by norm_num)]
    norm_num
  have hpos : 0 < ((16777216 : ℝ)) ^ (-0.1332047592 : ℝ) :=
    Real.rpow_pos_of_pos (by norm_num) _
  have hle := rpow_pow24_le
  have hv0 : 0 ≤ 329.698727446 * ((16777216 : ℝ)) ^ (-0.1332047592 : ℝ) := by
    positivity
  have hvle : 329.698727446 * ((16777216 : ℝ)) ^ (-0.1332047592 : ℝ) ≤
      329.698727446 * (1 / 8) :=
    mul_le_mul_of_nonneg_left hle (by norm_num)
  rw [hrw, c8bit_eq_floor hv0 (by linarith)]
  have hflt : ⌊329.698727446 * ((16777216 : ℝ)) ^ (-0.1332047592 : ℝ)⌋ < 255 := by
    apply Int.floor_lt.mpr
    push_cast
    linarith
  exact ne_of_lt hflt

/-- C1 (amended): for every x ≥ 66 the blue channel is 255, and the red
channel is 255 at x = 66 itself; red saturation does not extend to all
x ≥ 66 (see the counterexample). -/
theorem upper_saturation_amended :
    (∀ x : ℝ, 66 ≤ x → b x = 255) ∧ r 66 = 255 := by
  constructor
  · intro x hx
    rw [b_def, if_neg (show ¬ x ≤ 0.0 by push_neg; linarith),
      if_pos (show x ≥ 66 from hx), c8bit_255]
  · rw [r_def, if_neg (show ¬ (66 : ℝ) ≤ 0.0 by norm_num),
      if_pos (show (66 : ℝ) ≤ 66.0 by norm_num), c8bit_255]

/-- Witness for the amended C1: the hypothesis 66 ≤ 70 discharged
concretely. -/
theorem upper_saturation_amended_witness : b 70 = 255 :=
  upper_saturation_amended.1 70 (by norm_num)

/-! ## The sensor reader -/

/-- The `current` readings of all groups on the coretemp/k10temp
allow-list, in iteration order. -/
def matchingCurrents (temps : SensorMap) : List ℝ :=
  temps.foldr
    (fun p acc =>
      if p.1 = "coretemp" ∨ p.1 = "k10temp" then
        p.2.map SensorEntry.current ++ acc
      else acc)
    []

/-- The value C2 asserts the sensor reader returns: the maximum of all
reported `current` readings across the groups named `coretemp` or `k10temp`
(defined when at least one such reading exists). -/
def claimedMax (temps : SensorMap) : Option ℝ :=
  match matchingCurrents temps with
  | [] => none
  | x :: xs => some (xs.foldl max x)

theorem inner_foldl_eq_max (l : List SensorEntry) (init : ℝ) :
    l.foldl (fun t e => if e.current > t then e.current else t) init
      = (l.map SensorEntry.current).foldl max init := by
  induction l generalizing init with
  | nil => rfl
  | cons e l ih =>
      simp only [List.foldl_cons, List.map_cons]
      rw [ih]
      congr 1
      rcases le_or_lt e.current init with h | h
      · rw [if_neg (not_lt.mpr h), max_eq_left h]
      · rw [if_pos h, max_eq_right h.le]

theorem cputemp_foldl_eq (temps : SensorMap) (init : ℝ) :
    temps.foldl
        (fun temp p =>
          if p.1 = "coretemp" ∨ p.1 = "k10temp" then
            p.2.foldl (fun t e => if e.current > t then e.current else t) temp
          else temp)
        init
      = (matchingCurrents temps).foldl max init := by
  induction temps generalizing init with
  | nil => rfl
  | cons p temps ih =>
      by_cases hp : p.1 = "coretemp" ∨ p.1 = "k10temp"
      · have hmc : matchingCurrents (p :: temps)
            = p.2.map SensorEntry.current ++ matchingCurrents temps := by
          rw [matchingCurrents, List.foldr_cons, if_pos hp]
          rfl
        simp only [List.foldl_cons, if_pos hp]
        rw [ih, inner_foldl_eq_max, hmc, List.foldl_append]
      · have hmc : matchingCurrents (p :: temps) = matchingCurrents temps := by
          rw [matchingCurrents, List.foldr_cons, if_neg hp]
          rfl
        simp only [List.foldl_cons, if_neg hp]
        rw [ih, hmc]

theorem le_foldl_max (l : List ℝ) (init : ℝ) : init ≤ l.foldl max init := by
  induction l generalizing init with
  | nil => exact le_refl _
  | cons x l ih => exact le_trans (le_max_left init x) (ih (max init x))

/-- Counterexample to C2 as stated: for the non-empty mapping
[("coretemp", [current = −5])] the claimed value — the maximum of all
matching readings — is −5, but the reader returns 0.0 (the running maximum
starts at 0.0 and negative readings are discarded). -/
theorem cputemp_ne_claimed_max :
    claimedMax [("coretemp", [⟨-5⟩])] = some (-5) ∧
    cputemp [("coretemp", [⟨-5⟩])] = .ok 0 ∧
    (Except.ok 0 : Except String ℝ) ≠ .ok (-5) := by
  refine ⟨?_, ?_, by simp⟩
  · rw [claimedMax]
    have : matchingCurrents [("coretemp", [⟨-5⟩])] = [-5] := by
      rw [matchingCurrents, List.foldr_cons, if_pos (Or.inl rfl)]
      rfl
    rw [this]
    rfl
  · rw [cputemp]
    rw [if_neg (by simp), List.foldl_cons, if_pos (Or.inl rfl)]
    simp only [List.foldl_cons, List.foldl_nil]
    rw [if_neg (by norm_num)]

/-- C2 (amended): for every non-empty mapping, the sensor reader returns
the maximum of 0.0 together with all `current` readings of groups named
`coretemp` or `k10temp` (the running maximum starts at 0.0), and in
particular 0.0 — with no error — when no reading from a matching group is
present. -/
theorem cputemp_max_amended (temps : SensorMap) (h : temps ≠ []) :
    cputemp temps = .ok ((matchingCurrents temps).foldl max 0) ∧
    (matchingCurrents temps = [] → cputemp temps = .ok 0) := by
  have hne : temps.isEmpty = false := by
    cases temps with
    | nil => exact absurd rfl h
    | cons p temps => rfl
  have h1 : cputemp temps = .ok ((matchingCurrents temps).foldl max 0) := by
    rw [cputemp, if_neg (by rw [hne]; exact Bool.false_ne_true), cputemp_foldl_eq]
  refine ⟨h1, fun hmc => ?_⟩
  rw [h1, hmc]
  rfl

/-- Witness for the amended C2: a two-group mapping where the matching
readings are 30 and 50 and the reader returns 50. -/
theorem cputemp_max_amended_witness :
    cputemp [("coretemp", [⟨30⟩, ⟨50⟩]), ("acpitz", [⟨70⟩])] = .ok 50 := by
  have h := (cputemp_max_amended [("coretemp", [⟨30⟩, ⟨50⟩]), ("acpitz", [⟨70⟩])]
    (by simp)).1
  rw [h]
  have hmc : matchingCurrents [("coretemp", [⟨30⟩, ⟨50⟩]), ("acpitz", [⟨70⟩])]
      = [30, 50] := by
    rw [matchingCurrents, List.foldr_cons, List.foldr_cons, List.foldr_nil,
      if_pos (Or.inl rfl), if_neg (by simp)]
    rfl
  rw [hmc]
  simp only [List.foldl_cons, List.foldl_nil]
  rw [max_eq_right (by norm_num : (0 : ℝ) ≤ 30), max_eq_right (by norm_num : (30 : ℝ) ≤ 50)]

/-- C8: whatever the sensor-group mapping (negative readings included),
a successful read is never negative. -/
theorem cputemp_nonneg (temps : SensorMap) (v : ℝ) (h : cputemp temps = .ok v) :
    0 ≤ v := by
  rw [cputemp] at h
  by_cases he : temps.isEmpty
  · rw [if_pos he] at h
    exact absurd h (by simp)
  · rw [if_neg he, cputemp_foldl_eq] at h
    have hv : (matchingCurrents temps).foldl max 0 = v := by
      injection h
    rw [← hv]
    exact le_foldl_max _ 0

/-- Witness for C8: a matching group with a single reading of −3 yields
0.0, which is non-negative. -/
theorem cputemp_nonneg_witness : (0 : ℝ) ≤ 0 :=
  cputemp_nonneg [("k10temp", [⟨-3⟩])] 0 (by
    rw [cputemp, if_neg (by simp), List.foldl_cons, if_pos (Or.inr rfl)]
    simp only [List.foldl_cons, List.foldl_nil]
    rw [if_neg (by norm_num)])

end Cputemp2rgb
